import Mathlib

/-!
# Verification of the AI Shell task manager (src/task_manager.py)

Shallow embedding of the process-supervision core of the repository:
the outcome classifier `_determine_command_success`, the one-shot
executor `execute_command`, the script materializer
`_create_script_file`, the log tailer `_read_new_log_lines`, and the
registry operations `start_monitoring_task_sync` / `stop_task` together
with the watcher's exit observation.

Python strings are modelled as Lean `String`s (lists of characters);
Python's `str.strip`, `str.lower`, substring containment (`in`) and
`str.startswith` are embedded as explicit functions below.  Machine
processes, timestamps and the filesystem are abstracted: a process is
an abstract pid (`Nat`), and the nondeterministic outcome of spawning /
awaiting a process is an explicit input to the embedded functions.
-/

namespace AiShell

/-! ## Python string primitives -/

/-- The whitespace characters stripped by Python's `str.strip()`
(ASCII range, which is all the source ever feeds it). -/
def pySpace (c : Char) : Bool :=
  c == ' ' || c == '\t' || c == '\n' || c == '\r' || c == '\x0b' || c == '\x0c'

/-- `str.strip()` on the character list: drop whitespace from both ends. -/
def pyStripChars (l : List Char) : List Char :=
  ((l.dropWhile pySpace).reverse.dropWhile pySpace).reverse

/-- Python `s.strip()`. -/
def pyStrip (s : String) : String :=
  ⟨pyStripChars s.data⟩

/-- Python `s.lower()` (character-wise; the source only ever compares
ASCII text). -/
def pyLower (s : String) : String :=
  ⟨s.data.map Char.toLower⟩

/-- Python `sub in s` (substring containment). -/
def strContains (s sub : String) : Bool :=
  decide (sub.data <:+: s.data)

/-- Python `s.startswith(pre)`. -/
def pyStartsWith (s pre : String) : Bool :=
  decide (pre.data <+: s.data)

/-! ## Outcome classifier: `_determine_command_success`
(src/task_manager.py lines 286-351) and its helper
`_is_complex_command` (lines 352-367).

Python's early `return` statements inside an `if` block whose
conditions may all fail (falling through to the next family check) are
modelled with `Option Bool`: `some b` is an executed `return b`, `none`
means control fell through to the next check. -/

/-- The `acceptable_nonzero_commands` list (lines 324-329). -/
def acceptableNonzeroCommands : List String :=
  ["which", "whereis", "ping", "curl", "wget", "sort", "uniq"]

/-- The `complex_patterns` list (lines 354-364). -/
def complexPatterns : List String :=
  ["for ", "while ", "if ", "case ",
   " do ", " then ", " else ",
   "&&", "||",
   "$(", "`",
   "\x7b", "\x7d",
   ";",
   "|",
   ">", ">>",
   "\n"]

/-- `_is_complex_command` (lines 352-367): any pattern occurs in the
lowered command. -/
def isComplexCommand (command : String) : Bool :=
  complexPatterns.any (fun pat => strContains (pyLower command) pat)

/-- `_determine_command_success` (lines 286-350).  Each family check is
an `Option Bool` (`none` = fall through); the first `some` wins, the
default is `return_code == 0`. -/
def determineCommandSuccess (command : String) (returnCode : Int)
    (output error : String) : Bool :=
  let commandLower := pyStrip (pyLower command)
  let diffStep : Option Bool :=
    if strContains commandLower "diff" then
      if returnCode == 0 || returnCode == 1 then some true
      else if returnCode == 2 then
        some ((pyStrip error == "") || !(strContains (pyLower error) "no such file"))
      else none
    else none
  let grepStep : Option Bool :=
    if strContains commandLower "grep" then
      if returnCode == 0 || returnCode == 1 then some true
      else if returnCode == 2 then some (pyStrip error == "")
      else none
    else none
  let findStep : Option Bool :=
    if strContains commandLower "find" then
      if returnCode == 0 || returnCode == 1 then some true
      else if strContains (pyLower error) "permission denied" && !(pyStrip output == "") then
        some true
      else none
    else none
  let testStep : Option Bool :=
    if pyStartsWith commandLower "[" || pyStartsWith commandLower "test" then some true
    else none
  let acceptStep : Option Bool :=
    if acceptableNonzeroCommands.any (fun cmd => strContains commandLower cmd) then
      if returnCode == 0 || returnCode == 1 then some true
      else if !(pyStrip output == "") && (pyStrip error == "") then some true
      else none
    else none
  let complexStep : Option Bool :=
    if isComplexCommand command then
      if !(pyStrip output == "") && (pyStrip error == "") then some true
      else if (pyStrip output == "") && (pyStrip error == "") then some true
      else none
    else none
  (((((diffStep <|> grepStep) <|> findStep) <|> testStep) <|> acceptStep) <|> complexStep).getD
    (returnCode == 0)

/-! ## One-shot execution: `execute_command` (lines 99-169).

The OS-level outcome of spawning the process and awaiting it (with
`asyncio.wait_for ... timeout`) is an explicit input.  `timesOut`
carries the stdout/stderr the killed process had produced so far, which
the source discards. -/

/-- `CommandResult`: the dict `{success, output, error, return_code}`. -/
structure CommandResult where
  success : Bool
  output : String
  error : String
  returnCode : Int
deriving Repr, DecidableEq

/-- The possible outcomes of the spawned process of `execute_command`. -/
inductive ProcExec where
  /-- `asyncio.create_subprocess_exec` raises (outer `except Exception`). -/
  | spawnError (msg : String)
  /-- `asyncio.wait_for` raises `TimeoutError`; the process is killed.
  `partialOut`/`partialErr` are what it had written before the kill. -/
  | timesOut (partialOut partialErr : String)
  /-- The process exits in time with this return code, stdout, stderr. -/
  | completes (returnCode : Int) (stdout stderr : String)
deriving Repr, DecidableEq

/-- `execute_command` (lines 99-169): result for each process outcome. -/
def executeCommand (command : String) (timeout : Nat) (proc : ProcExec) : CommandResult :=
  match proc with
  | .spawnError msg =>
      { success := false, output := "",
        error := "Failed to execute command: " ++ msg, returnCode := -1 }
  | .timesOut _ _ =>
      { success := false, output := "",
        error := "Command timed out after " ++ toString timeout ++ " seconds",
        returnCode := -1 }
  | .completes returnCode stdout stderr =>
      { success := determineCommandSuccess command returnCode stdout stderr,
        output := stdout, error := stderr, returnCode := returnCode }

/-! ## Script materializer: `_create_script_file` (lines 227-284) and
`_indent_script` (lines 369-372). -/

/-- The reserved placeholder token substituted in `script_content`
(line 234: `script_content.replace("PLACEHOLDER", task_id)`). -/
def placeholderTok : List Char := "PLACEHOLDER".data

/-- Python `s.replace("PLACEHOLDER", repl)`: scan left to right,
replacing each (non-overlapping, leftmost) occurrence of the token. -/
def replacePlaceholder (repl : List Char) (s : List Char) : List Char :=
  match s with
  | [] => []
  | c :: rest =>
      if placeholderTok <+: c :: rest then
        repl ++ replacePlaceholder repl ((c :: rest).drop placeholderTok.length)
      else
        c :: replacePlaceholder repl rest
termination_by s.length
decreasing_by
  · simp only [List.length_drop, placeholderTok, List.length_cons]
    omega
  · simp

/-- `n` spaces, the `indent` of `_indent_script`. -/
def spacesList (n : Nat) : List Char := List.replicate n ' '

/-- Helper of `indentScript`: insert `n` spaces after every newline
(equivalently, before every line after the first). -/
def indentGo (n : Nat) : List Char → List Char
  | [] => []
  | c :: rest =>
      if c = '\n' then c :: (spacesList n ++ indentGo n rest)
      else c :: indentGo n rest

/-- `_indent_script(script, spaces)` (lines 369-372):
`"\n".join(indent + line for line in script.split("\n"))`. -/
def indentScript (n : Nat) (s : List Char) : List Char :=
  spacesList n ++ indentGo n s

/-- Fixed wrapper text before the first `{task_id}` interpolation. -/
def wrapperSegA : List Char := "#!/bin/bash\n\n# Task: ".data

/-- Fixed wrapper text between `# Task: {task_id}` and `TASK_ID="{task_id}"`. -/
def wrapperSegB : List Char := "\n# Generated by AI Shell\n\nTASK_ID=\"".data

/-- Fixed wrapper text between `TASK_ID="{task_id}"` and `INTERVAL={interval}`. -/
def wrapperSegC : List Char := "\"\nINTERVAL=".data

/-- Fixed wrapper text between `INTERVAL={interval}` and `LOG_DIR="{task_log_dir}"`. -/
def wrapperSegD : List Char := "\nLOG_DIR=\"".data

/-- Fixed wrapper text from the closing quote of `LOG_DIR` down to the
`\x7b` opening the per-iteration block (inclusive), before the newline
that precedes the indented script body. -/
def wrapperSegE : List Char :=
  ("\"\nOUTPUT_LOG=\"$LOG_DIR/output.log\"\nERROR_LOG=\"$LOG_DIR/error.log\"\n\n" ++
   "# Signal handler for graceful shutdown\ncleanup() \x7b\n" ++
   "    echo \"$(date): Task $TASK_ID shutting down...\" >> \"$OUTPUT_LOG\"\n" ++
   "    exit 0\n\x7d\n\ntrap cleanup SIGTERM SIGINT\n\n" ++
   "echo \"$(date): Task $TASK_ID started\" >> \"$OUTPUT_LOG\"\n\n" ++
   "# Main monitoring loop\nwhile true; do\n    # Execute the monitoring command\n    \x7b").data

/-- Fixed wrapper text after the newline that follows the indented
script body: the `\x7d >> ...` redirection line and the rest. -/
def wrapperSegF : List Char :=
  ("    \x7d >> \"$OUTPUT_LOG\" 2>> \"$ERROR_LOG\"\n    \n" ++
   "    # Sleep for the specified interval\n    sleep \"$INTERVAL\"\ndone\n").data

/-- Path separator text of `log_directory / f"task_{task_id}"`:
`pathlib`'s `/` renders as a `/`-joined path. -/
def taskDirSep : List Char := "/task_".data

/-- The full wrapper text of `_create_script_file` (lines 237-268),
with `body` the already-placeholder-substituted script content. -/
def wrapperChars (logDir tid ivl body : List Char) : List Char :=
  wrapperSegA ++ (tid ++ (wrapperSegB ++ (tid ++ (wrapperSegC ++ (ivl ++
    (wrapperSegD ++ ((logDir ++ (taskDirSep ++ tid)) ++
      (wrapperSegE ++ ('\n' :: (indentScript 8 body ++ ('\n' :: wrapperSegF)))))))))))

/-- `_create_script_file` (lines 227-284): the text written to the
on-disk wrapper script for task `taskId`. -/
def createScriptFileText (logDirectory taskId scriptContent : String)
    (interval : Nat) : String :=
  ⟨wrapperChars logDirectory.data taskId.data (Nat.repr interval).data
    (replacePlaceholder taskId.data scriptContent.data)⟩

/-! ## Log tailing: `_read_new_log_lines` (lines 429-446). -/

/-- One `log_list.append(line.strip())` followed by the conditional
`log_list.pop(0)` when the 1000-line cap is exceeded (lines 438-443). -/
def appendTrim (maxLogLines : Nat) (logList : List String) (line : String) : List String :=
  let logList := logList ++ [pyStrip line]
  if maxLogLines < logList.length then logList.tail else logList

/-- `_read_new_log_lines(log_file, log_list)` (lines 429-446):
`new_lines = lines[len(log_list):]`, then append-and-trim each. -/
def readNewLogLines (maxLogLines : Nat) (fileLines logList : List String) : List String :=
  (fileLines.drop logList.length).foldl (appendTrim maxLogLines) logList

/-! ## Task registry state machine.

`BackgroundTask` (lines 25-52) and the registry mutations performed by
`start_monitoring_task_sync` (lines 172-225), the monitor thread's
exit observation (lines 406-412) and `stop_task` (lines 448-521).
Timestamps, the main log file and the per-task status log are
abstracted away; the registry `background_tasks` is an association
list with (in practice unique) string keys. -/

/-- `BackgroundTask` (lines 25-52). -/
structure BgTask where
  taskId : String
  description : String
  scriptContent : String
  interval : Nat
  process : Option Nat
  scriptFile : Option String
  status : String
  outputLog : List String
  errorLog : List String
deriving Repr, DecidableEq

/-- The `TaskManager` registry state (`self.background_tasks`). -/
structure TMState where
  backgroundTasks : List (String × BgTask)
deriving Repr, DecidableEq

/-- Dict lookup `background_tasks[task_id]` / `task_id in background_tasks`. -/
def lookupTask : List (String × BgTask) → String → Option BgTask
  | [], _ => none
  | p :: rest, id => if p.1 = id then some p.2 else lookupTask rest id

/-- Dict deletion `del background_tasks[task_id]`. -/
def removeTask : List (String × BgTask) → String → List (String × BgTask)
  | [], _ => []
  | p :: rest, id => if p.1 = id then removeTask rest id else p :: removeTask rest id

/-- Update the status field of the registered task `id` (a `task.status = ...`
assignment observed through the registry). -/
def setTaskStatus (tasks : List (String × BgTask)) (id status : String) :
    List (String × BgTask) :=
  tasks.map (fun p => if p.1 = id then (p.1, { p.2 with status := status }) else p)

/-- How the launch attempt of `start_monitoring_task_sync` can go:
`_create_script_file` raises, `subprocess.Popen` raises, or both succeed. -/
inductive LaunchOutcome where
  /-- `_create_script_file` raises `msg`. -/
  | scriptFails (msg : String)
  /-- The script file `scriptPath` is created but `Popen` raises `msg`. -/
  | spawnFails (scriptPath msg : String)
  /-- Launch succeeds: script at `scriptPath`, process `pid`. -/
  | launchOk (scriptPath : String) (pid : Nat)
deriving Repr, DecidableEq

/-- `start_monitoring_task_sync` (lines 172-225).  `freshId` stands for
the generated `str(uuid.uuid4())[:8]`.  Returns the raised error (with
the error-marked local task object) or the task id, plus the new
registry state. -/
def startMonitoringTaskSync (st : TMState) (freshId description scriptContent : String)
    (interval : Nat) (outcome : LaunchOutcome) :
    Except (String × BgTask) String × TMState :=
  let task : BgTask :=
    { taskId := freshId, description := description, scriptContent := scriptContent,
      interval := interval, process := none, scriptFile := none,
      status := "created", outputLog := [], errorLog := [] }
  match outcome with
  | .scriptFails msg =>
      let errorMsg := "Failed to start background task: " ++ msg
      (Except.error (errorMsg,
        { task with status := "error", errorLog := task.errorLog ++ [errorMsg] }), st)
  | .spawnFails scriptPath msg =>
      let task := { task with scriptFile := some scriptPath }
      let errorMsg := "Failed to start background task: " ++ msg
      (Except.error (errorMsg,
        { task with status := "error", errorLog := task.errorLog ++ [errorMsg] }), st)
  | .launchOk scriptPath pid =>
      let task := { task with scriptFile := some scriptPath,
                              process := some pid, status := "running" }
      (Except.ok freshId,
       { st with backgroundTasks := st.backgroundTasks ++ [(freshId, task)] })

/-- The monitor thread's task-finished step (lines 406-412): on seeing
the process exited with `returnCode`, set status to `stopped`/`error`.
The process handle is not cleared and the task is not removed. -/
def watcherObserveExit (st : TMState) (taskId : String) (returnCode : Int) : TMState :=
  ⟨setTaskStatus st.backgroundTasks taskId
    (if returnCode == 0 then "stopped" else "error")⟩

/-- `stop_task` (lines 448-521): unknown id returns `False` unchanged;
otherwise the task's status is set to `"stopped"`, the entry is deleted
from the registry and `True` is returned.  Signalling and script-file
cleanup touch only the OS, not the registry. -/
def stopTask (st : TMState) (taskId : String) : Bool × TMState :=
  match lookupTask st.backgroundTasks taskId with
  | none => (false, st)
  | some _ =>
      (true, ⟨removeTask (setTaskStatus st.backgroundTasks taskId "stopped") taskId⟩)

/-- The registry states reachable through the embedded operations,
starting from the empty registry. -/
inductive Reach : TMState → Prop
  | init : Reach ⟨[]⟩
  | start {st : TMState} {freshId description scriptContent : String} {interval : Nat}
      {outcome : LaunchOutcome} (h : Reach st) :
      Reach (startMonitoringTaskSync st freshId description scriptContent interval outcome).2
  | watcher {st : TMState} {taskId : String} {returnCode : Int} (h : Reach st) :
      Reach (watcherObserveExit st taskId returnCode)
  | stop {st : TMState} {taskId : String} (h : Reach st) :
      Reach (stopTask st taskId).2

/-! ## Concrete instances used to witness the theorems -/

/-- The task record produced by a successful launch of a sample task. -/
def sampleTask : BgTask :=
  { taskId := "t1", description := "watch disk", scriptContent := "df -h",
    interval := 5, process := some 42, scriptFile := some "/tmp/s.sh",
    status := "running", outputLog := [], errorLog := [] }

/-- `sampleTask` after the watcher observed a clean exit. -/
def sampleTaskStopped : BgTask :=
  { sampleTask with status := "stopped" }

/-- The registry after successfully starting the sample task on an empty
manager. -/
def stOne : TMState :=
  (startMonitoringTaskSync ⟨[]⟩ "t1" "watch disk" "df -h" 5
    (.launchOk "/tmp/s.sh" 42)).2

/-- An on-disk log file of 1001 lines: 1000 times `"a"`, then `"b"`. -/
def watchedFileLines : List String := List.replicate 1000 "a" ++ ["b"]

/-- The invariant asserted by claim C2: a registered task's process handle is
non-null exactly when its status is `"running"`. -/
def handleStatusClaim (st : TMState) : Prop :=
  ∀ p ∈ st.backgroundTasks, (p.2.process ≠ none ↔ p.2.status = "running")

/-! ## Helper lemmas: occurrences of a pattern in concatenations -/

/-- A prefix of `u ++ v` is a prefix of `u`, or extends `u` by a prefix of `v`. -/
theorem prefix_append_split {α : Type} {pat u v : List α} (h : pat <+: u ++ v) :
    pat <+: u ∨ ∃ p2, pat = u ++ p2 ∧ p2 <+: v := by
  obtain ⟨w, hw⟩ := h
  rcases List.append_eq_append_iff.mp hw with ⟨a', ha1, _⟩ | ⟨c', hc1, hc2⟩
  · exact Or.inl ⟨a', ha1.symm⟩
  · exact Or.inr ⟨c', hc1, ⟨w, hc2.symm⟩⟩

/-- An infix of `u ++ v` is an infix of `u`, an infix of `v`, or spans the
boundary: a nonempty suffix of `u` followed by a nonempty prefix of `v`. -/
theorem infix_append_split {α : Type} {pat u v : List α} (h : pat <:+: u ++ v) :
    pat <:+: u ∨ pat <:+: v ∨
      ∃ p1 p2, pat = p1 ++ p2 ∧ p1 ≠ [] ∧ p2 ≠ [] ∧ p1 <:+ u ∧ p2 <+: v := by
  induction u with
  | nil => exact Or.inr (Or.inl (by simpa using h))
  | cons a u ih =>
    rw [List.cons_append, List.infix_cons_iff] at h
    rcases h with hpre | hinf
    · rcases prefix_append_split (u := a :: u) (v := v) hpre with hp | ⟨p2, hp2, hpv⟩
      · exact Or.inl hp.isInfix
      · by_cases hp2e : p2 = []
        · subst hp2e
          simp only [List.append_nil] at hp2
          exact Or.inl (hp2 ▸ List.infix_refl (a :: u))
        · exact Or.inr (Or.inr ⟨a :: u, p2, hp2, List.cons_ne_nil a u, hp2e,
            List.suffix_refl (a :: u), hpv⟩)
    · rcases ih hinf with h | h | ⟨p1, p2, hp, h1, h2, hsuf, hpref⟩
      · exact Or.inl (List.infix_cons h)
      · exact Or.inr (Or.inl h)
      · exact Or.inr (Or.inr ⟨p1, p2, hp, h1, h2, hsuf.trans (List.suffix_cons a u), hpref⟩)

/-- If every character of the nonempty middle block `m` avoids the nonempty
pattern, an occurrence of the pattern in `u ++ (m ++ v)` lies in `u` or in `v`. -/
theorem infix_append_middle {pat m u v : List Char} (hpat : pat ≠ []) (hm : m ≠ [])
    (hdisj : ∀ c ∈ m, c ∉ pat) (h : pat <:+: u ++ (m ++ v)) :
    pat <:+: u ∨ pat <:+: v := by
  rcases infix_append_split h with h | h | ⟨p1, p2, hp, h1, h2, _, hpref⟩
  · exact Or.inl h
  · rcases infix_append_split h with h | h | ⟨q1, q2, hq, hq1, _, hqsuf, _⟩
    · exfalso
      obtain ⟨c, hc⟩ := List.exists_mem_of_ne_nil pat hpat
      exact hdisj c (h.subset hc) hc
    · exact Or.inr h
    · exfalso
      obtain ⟨c, hc⟩ := List.exists_mem_of_ne_nil q1 hq1
      exact hdisj c (hqsuf.subset hc) (hq ▸ List.mem_append_left q2 hc)
  · exfalso
    rcases p2 with _ | ⟨c, p2'⟩
    · exact h2 rfl
    rcases m with _ | ⟨d, m'⟩
    · exact hm rfl
    have hcd : c = d := (List.cons_prefix_cons.mp hpref).1
    have hcp : c ∈ pat := hp ▸ List.mem_append_right p1 (List.mem_cons_self c p2')
    exact hdisj d (List.mem_cons_self d m') (hcd ▸ hcp)

/-! ## Helper lemmas: `replacePlaceholder` leaves no token occurrence -/

/-- A pattern-char-free prefix of a replacement result is a prefix of the
original string (with nonempty replacement text). -/
theorem prefix_through_replace {repl : List Char} (hrepl : repl ≠ []) :
    ∀ n (s : List Char), s.length ≤ n → ∀ l : List Char,
      (∀ c ∈ l, c ∉ repl) → l <+: replacePlaceholder repl s → l <+: s := by
  intro n
  induction n with
  | zero =>
    intro s hs l _ h
    have hnil : s = [] := List.length_eq_zero.mp (Nat.le_zero.mp hs)
    subst hnil
    simpa [replacePlaceholder] using h
  | succ n ih =>
    intro s hs l hdisj h
    match s with
    | [] => simpa [replacePlaceholder] using h
    | c :: rest =>
      rw [replacePlaceholder] at h
      by_cases hpre : placeholderTok <+: c :: rest
      · rw [if_pos hpre] at h
        rcases l with _ | ⟨x, l'⟩
        · exact List.nil_prefix
        · exfalso
          rcases hr : repl with _ | ⟨r, repl'⟩
          · exact hrepl hr
          rw [hr] at h
          have hx : x = r := (List.cons_prefix_cons.mp h).1
          exact hdisj x (List.mem_cons_self x l') (hr ▸ hx ▸ List.mem_cons_self r repl')
      · rw [if_neg hpre] at h
        rcases l with _ | ⟨x, l'⟩
        · exact List.nil_prefix
        · obtain ⟨hx, hl'⟩ := List.cons_prefix_cons.mp h
          subst hx
          have hrest : l' <+: rest := by
            refine ih rest ?_ l' (fun c hc => hdisj c (List.mem_cons_of_mem _ hc)) hl'
            have := hs
            simp only [List.length_cons] at this
            omega
          exact List.cons_prefix_cons.mpr ⟨rfl, hrest⟩

/-- Core fact for claim C6: if the replacement text is nonempty and shares no
character with the token, the replaced string contains no token occurrence. -/
theorem replace_no_occurrence_aux {repl : List Char} (hrepl : repl ≠ [])
    (hdisj : ∀ c ∈ repl, c ∉ placeholderTok) :
    ∀ n (s : List Char), s.length ≤ n →
      ¬ placeholderTok <:+: replacePlaceholder repl s := by
  intro n
  induction n with
  | zero =>
    intro s hs h
    have hnil : s = [] := List.length_eq_zero.mp (Nat.le_zero.mp hs)
    subst hnil
    rw [show replacePlaceholder repl [] = [] from by rw [replacePlaceholder]] at h
    exact absurd (List.infix_nil.mp h) (by decide)
  | succ n ih =>
    intro s hs h
    match s with
    | [] =>
      rw [show replacePlaceholder repl [] = [] from by rw [replacePlaceholder]] at h
      exact absurd (List.infix_nil.mp h) (by decide)
    | c :: rest =>
      rw [replacePlaceholder] at h
      by_cases hpre : placeholderTok <+: c :: rest
      · rw [if_pos hpre] at h
        rcases infix_append_split h with h | h | ⟨p1, p2, hp, h1, _, hsuf, _⟩
        · obtain ⟨d, hd⟩ := List.exists_mem_of_ne_nil placeholderTok (by decide)
          exact hdisj d (h.subset hd) hd
        · refine ih ((c :: rest).drop placeholderTok.length) ?_ h
          have h11 : placeholderTok.length = 11 := by decide
          simp only [List.length_drop, List.length_cons, h11]
          simp only [List.length_cons] at hs
          omega
        · obtain ⟨d, hd⟩ := List.exists_mem_of_ne_nil p1 h1
          exact hdisj d (hsuf.subset hd) (hp ▸ List.mem_append_left p2 hd)
      · rw [if_neg hpre] at h
        rcases List.infix_cons_iff.mp h with hpfx | hinf
        · rcases ht : placeholderTok with _ | ⟨t0, ts⟩
          · exact absurd ht (by decide)
          rw [ht] at hpfx
          obtain ⟨ht0, hts⟩ := List.cons_prefix_cons.mp hpfx
          have hts' : ts <+: rest := by
            refine prefix_through_replace hrepl rest.length rest le_rfl ts ?_ hts
            intro d hd hdr
            exact hdisj d hdr (ht ▸ List.mem_cons_of_mem t0 hd)
          exact hpre (ht ▸ ht0 ▸ List.cons_prefix_cons.mpr ⟨rfl, hts'⟩)
        · refine ih rest ?_ hinf
          simp only [List.length_cons] at hs
          omega

/-- The placeholder token does not occur in a replaced string when the
replacement text is nonempty and shares no character with the token. -/
theorem replace_no_occurrence {repl s : List Char} (hrepl : repl ≠ [])
    (hdisj : ∀ c ∈ repl, c ∉ placeholderTok) :
    ¬ placeholderTok <:+: replacePlaceholder repl s :=
  replace_no_occurrence_aux hrepl hdisj s.length s le_rfl

/-! ## Helper lemmas: indentation preserves token-freedom -/

/-- A prefix of `indentGo n s` avoiding newline and space is a prefix of `s`. -/
theorem prefix_through_indentGo {n : Nat} :
    ∀ (s l : List Char), ('\n' : Char) ∉ l → (' ' : Char) ∉ l →
      l <+: indentGo n s → l <+: s := by
  intro s
  induction s with
  | nil =>
    intro l _ _ h
    simpa [indentGo] using h
  | cons c rest ih =>
    intro l hnl hsp h
    by_cases hc : c = '\n'
    · subst hc
      rw [indentGo, if_pos rfl] at h
      rcases l with _ | ⟨x, l'⟩
      · exact List.nil_prefix
      · exact absurd ((List.cons_prefix_cons.mp h).1 ▸ List.mem_cons_self x l') hnl
    · rw [indentGo, if_neg hc] at h
      rcases l with _ | ⟨x, l'⟩
      · exact List.nil_prefix
      · obtain ⟨hx, hl'⟩ := List.cons_prefix_cons.mp h
        subst hx
        have : l' <+: rest := ih l' (fun hm => hnl (List.mem_cons_of_mem _ hm))
          (fun hm => hsp (List.mem_cons_of_mem _ hm)) hl'
        exact List.cons_prefix_cons.mpr ⟨rfl, this⟩

/-- An occurrence of a newline-free, space-free, nonempty pattern in
`indentGo n s` is an occurrence in `s`. -/
theorem infix_through_indentGo {n : Nat} {pat : List Char} (hne : pat ≠ [])
    (hnl : ('\n' : Char) ∉ pat) (hsp : (' ' : Char) ∉ pat) :
    ∀ s : List Char, pat <:+: indentGo n s → pat <:+: s := by
  intro s
  induction s with
  | nil =>
    intro h
    rw [indentGo] at h
    exact absurd (List.infix_nil.mp h) hne
  | cons c rest ih =>
    intro h
    by_cases hc : c = '\n'
    · subst hc
      rw [indentGo, if_pos rfl] at h
      rcases List.infix_cons_iff.mp h with hpfx | hinf
      · rcases pat with _ | ⟨x, pat'⟩
        · exact absurd rfl hne
        · exact absurd ((List.cons_prefix_cons.mp hpfx).1 ▸ List.mem_cons_self x pat') hnl
      · rcases infix_append_split hinf with h | h | ⟨p1, p2, hp, h1, _, hsuf, _⟩
        · exfalso
          obtain ⟨d, hd⟩ := List.exists_mem_of_ne_nil pat hne
          have : d ∈ spacesList n := h.subset hd
          rw [spacesList, List.mem_replicate] at this
          exact hsp (this.2 ▸ hd)
        · exact List.infix_cons (ih h)
        · exfalso
          obtain ⟨d, hd⟩ := List.exists_mem_of_ne_nil p1 h1
          have : d ∈ spacesList n := hsuf.subset hd
          rw [spacesList, List.mem_replicate] at this
          exact hsp (this.2 ▸ hp ▸ List.mem_append_left p2 hd)
    · rw [indentGo, if_neg hc] at h
      rcases List.infix_cons_iff.mp h with hpfx | hinf
      · rcases pat with _ | ⟨x, pat'⟩
        · exact absurd rfl hne
        · obtain ⟨hx, hpat'⟩ := List.cons_prefix_cons.mp hpfx
          subst hx
          have : pat' <+: rest := prefix_through_indentGo rest pat'
            (fun hm => hnl (List.mem_cons_of_mem _ hm))
            (fun hm => hsp (List.mem_cons_of_mem _ hm)) hpat'
          exact (List.cons_prefix_cons.mpr ⟨rfl, this⟩).isInfix
      · exact List.infix_cons (ih hinf)

/-- An occurrence of a newline-free, space-free, nonempty pattern in
`indentScript n s` is an occurrence in `s`. -/
theorem infix_through_indentScript {n : Nat} {pat s : List Char} (hne : pat ≠ [])
    (hnl : ('\n' : Char) ∉ pat) (hsp : (' ' : Char) ∉ pat)
    (h : pat <:+: indentScript n s) : pat <:+: s := by
  rw [indentScript] at h
  rcases infix_append_split h with h | h | ⟨p1, p2, hp, h1, _, hsuf, _⟩
  · exfalso
    obtain ⟨d, hd⟩ := List.exists_mem_of_ne_nil pat hne
    have : d ∈ spacesList n := h.subset hd
    rw [spacesList, List.mem_replicate] at this
    exact hsp (this.2 ▸ hd)
  · exact infix_through_indentGo hne hnl hsp s h
  · exfalso
    obtain ⟨d, hd⟩ := List.exists_mem_of_ne_nil p1 h1
    have : d ∈ spacesList n := hsuf.subset hd
    rw [spacesList, List.mem_replicate] at this
    exact hsp (this.2 ▸ hp ▸ List.mem_append_left p2 hd)

/-! ## Helper lemmas: the append-and-trim fold -/

/-- Closed form of the watcher's append-and-trim loop: starting from a log
within the cap, folding lines through `appendTrim` keeps the last `cap`
stripped lines, in order. -/
theorem foldl_appendTrim (cap : Nat) :
    ∀ (ls l0 : List String), l0.length ≤ cap →
      ls.foldl (appendTrim cap) l0 =
        (l0 ++ ls.map pyStrip).drop ((l0.length + ls.length) - cap) := by
  intro ls
  induction ls with
  | nil =>
    intro l0 h
    simp [Nat.sub_eq_zero_of_le h]
  | cons x ls ih =>
    intro l0 h
    rw [List.foldl_cons]
    have hstep : appendTrim cap l0 x =
        (l0 ++ [pyStrip x]).drop ((l0.length + 1) - cap) := by
      unfold appendTrim
      by_cases hlen : cap < (l0 ++ [pyStrip x]).length
      · rw [if_pos hlen]
        have hd : (l0.length + 1) - cap = 1 := by
          simp only [List.length_append, List.length_cons, List.length_nil] at hlen
          omega
        rw [hd, List.drop_one]
      · rw [if_neg hlen]
        have hd : (l0.length + 1) - cap = 0 := by
          simp only [List.length_append, List.length_cons, List.length_nil] at hlen
          omega
        rw [hd, List.drop_zero]
    have hlen2 : (appendTrim cap l0 x).length ≤ cap := by
      rw [hstep]
      simp only [List.length_drop, List.length_append, List.length_cons, List.length_nil]
      omega
    rw [ih _ hlen2, hstep, List.length_drop]
    have hsplit : (l0 ++ [pyStrip x]).drop ((l0.length + 1) - cap) ++ ls.map pyStrip =
        ((l0 ++ [pyStrip x]) ++ ls.map pyStrip).drop ((l0.length + 1) - cap) :=
      (List.drop_append_of_le_length
        (by simp only [List.length_append, List.length_cons, List.length_nil]; omega)).symm
    rw [hsplit, List.drop_drop, List.append_assoc]
    simp only [List.length_append, List.length_cons, List.length_nil,
      List.singleton_append, List.length_map, List.map_cons]
    congr 1
    omega

/-! ## Helper lemmas: all-whitespace strings -/

/-- If stripping leaves nothing, every character was whitespace. -/
theorem pyStripChars_eq_nil {l : List Char} (h : pyStripChars l = []) :
    ∀ c ∈ l, pySpace c = true := by
  unfold pyStripChars at h
  rw [List.reverse_eq_nil_iff, List.dropWhile_eq_nil_iff] at h
  intro c hc
  rw [← List.takeWhile_append_dropWhile (p := pySpace) (l := l)] at hc
  rcases List.mem_append.mp hc with hc | hc
  · exact List.mem_takeWhile_imp hc
  · exact h c (List.mem_reverse.mpr hc)

/-- If stderr strips to the empty string, the lowered stderr cannot contain
the text `"no such file"`. -/
theorem whitespace_no_such_file {error : String} (h : (pyStrip error == "") = true) :
    strContains (pyLower error) "no such file" = false := by
  rw [beq_iff_eq] at h
  have hall : ∀ c ∈ error.data, pySpace c = true :=
    pyStripChars_eq_nil (congrArg String.data h)
  by_contra hc
  rw [Bool.not_eq_false] at hc
  have hinf : "no such file".data <:+: (pyLower error).data := of_decide_eq_true hc
  have hn : ('n' : Char) ∈ (pyLower error).data := hinf.subset (by decide)
  have hn' : ('n' : Char) ∈ error.data.map Char.toLower := hn
  obtain ⟨c, hcl, hlc⟩ := List.mem_map.mp hn'
  have hsp := hall c hcl
  simp only [pySpace, Bool.or_eq_true, beq_iff_eq] at hsp
  rcases hsp with ((((h' | h') | h') | h') | h') | h' <;> subst h' <;>
    exact absurd hlc (by decide)

/-! ## Helper lemmas: the registry association list -/

/-- After deleting `id`, looking up `id` fails. -/
theorem lookupTask_removeTask (l : List (String × BgTask)) (id : String) :
    lookupTask (removeTask l id) id = none := by
  induction l with
  | nil => rfl
  | cons p rest ih =>
    rw [removeTask]
    by_cases h : p.1 = id
    · rw [if_pos h]; exact ih
    · rw [if_neg h, lookupTask, if_neg h]; exact ih

/-- Deletion only removes entries. -/
theorem mem_removeTask {l : List (String × BgTask)} {id : String} {p : String × BgTask}
    (h : p ∈ removeTask l id) : p ∈ l := by
  induction l with
  | nil => simp [removeTask] at h
  | cons q rest ih =>
    rw [removeTask] at h
    by_cases hq : q.1 = id
    · rw [if_pos hq] at h
      exact List.mem_cons_of_mem q (ih h)
    · rw [if_neg hq] at h
      rcases List.mem_cons.mp h with h | h
      · exact h ▸ List.mem_cons_self q rest
      · exact List.mem_cons_of_mem q (ih h)

/-- No surviving entry carries the deleted key. -/
theorem fst_ne_of_mem_removeTask {l : List (String × BgTask)} {id : String}
    {p : String × BgTask} (h : p ∈ removeTask l id) : p.1 ≠ id := by
  induction l with
  | nil => simp [removeTask] at h
  | cons q rest ih =>
    rw [removeTask] at h
    by_cases hq : q.1 = id
    · rw [if_pos hq] at h
      exact ih h
    · rw [if_neg hq] at h
      rcases List.mem_cons.mp h with h | h
      · exact h ▸ hq
      · exact ih h

/-- Updating a status leaves the key sequence unchanged. -/
theorem setTaskStatus_map_fst (l : List (String × BgTask)) (id status : String) :
    (setTaskStatus l id status).map Prod.fst = l.map Prod.fst := by
  unfold setTaskStatus
  rw [List.map_map]
  refine List.map_congr_left (fun p _ => ?_)
  by_cases h : p.1 = id <;> simp [h]

/-- Updating a status leaves every process handle unchanged. -/
theorem setTaskStatus_map_process (l : List (String × BgTask)) (id status : String) :
    (setTaskStatus l id status).map (fun p => p.2.process) =
      l.map (fun p => p.2.process) := by
  unfold setTaskStatus
  rw [List.map_map]
  refine List.map_congr_left (fun p _ => ?_)
  by_cases h : p.1 = id <;> simp [h]

/-- Every entry of the status-updated list comes from an entry of the
original list with the same key and the same process handle. -/
theorem mem_setTaskStatus {l : List (String × BgTask)} {id status : String}
    {p : String × BgTask} (h : p ∈ setTaskStatus l id status) :
    ∃ q ∈ l, p.1 = q.1 ∧ p.2.process = q.2.process := by
  unfold setTaskStatus at h
  obtain ⟨q, hq, hpq⟩ := List.mem_map.mp h
  refine ⟨q, hq, ?_⟩
  by_cases hid : q.1 = id
  · rw [if_pos hid] at hpq
    subst hpq
    exact ⟨rfl, rfl⟩
  · rw [if_neg hid] at hpq
    subst hpq
    exact ⟨rfl, rfl⟩

/-- Invariant of all reachable registry states: every registered task holds a
non-null process handle (registration happens only on successful launch, and
no operation ever clears the handle field). -/
theorem reach_process_ne_none {st : TMState} (h : Reach st) :
    ∀ p ∈ st.backgroundTasks, p.2.process ≠ none := by
  induction h with
  | init => intro p hp; simp at hp
  | start h ih =>
    rename_i st freshId description scriptContent interval outcome
    intro p hp
    cases outcome with
    | scriptFails msg => exact ih p hp
    | spawnFails scriptPath msg => exact ih p hp
    | launchOk scriptPath pid =>
      simp only [startMonitoringTaskSync] at hp
      rcases List.mem_append.mp hp with hp | hp
      · exact ih p hp
      · rcases List.mem_singleton.mp hp with rfl
        simp
  | watcher h ih =>
    rename_i st taskId returnCode
    intro p hp
    simp only [watcherObserveExit] at hp
    obtain ⟨q, hq, _, hproc⟩ := mem_setTaskStatus hp
    exact hproc ▸ ih q hq
  | stop h ih =>
    rename_i st taskId
    intro p hp
    simp only [stopTask] at hp
    rcases hl : lookupTask st.backgroundTasks taskId with _ | t
    · rw [hl] at hp
      exact ih p hp
    · rw [hl] at hp
      simp only at hp
      obtain ⟨q, hq, _, hproc⟩ := mem_setTaskStatus (mem_removeTask hp)
      exact hproc ▸ ih q hq

/-! ## Claim theorems -/

/-- C3: for every command whose lowered, stripped text contains `"diff"`
(in particular every command containing `"diff"`), the classifier returns
`true` for return codes 0 and 1, and for return code 2 it returns `true`
iff `"no such file"` does not appear (case-insensitively) in stderr. -/
theorem diff_family_classification (command output error : String)
    (hdiff : strContains (pyStrip (pyLower command)) "diff" = true) :
    determineCommandSuccess command 0 output error = true ∧
    determineCommandSuccess command 1 output error = true ∧
    (determineCommandSuccess command 2 output error = true ↔
      strContains (pyLower error) "no such file" = false) := by
  refine ⟨?_, ?_, ?_⟩
  · simp [determineCommandSuccess, hdiff]
  · simp [determineCommandSuccess, hdiff]
  · have hred : determineCommandSuccess command 2 output error =
        ((pyStrip error == "") || !(strContains (pyLower error) "no such file")) := by
      simp [determineCommandSuccess, hdiff]
    rw [hred]
    constructor
    · intro h
      by_cases hws : (pyStrip error == "") = true
      · exact whitespace_no_such_file hws
      · simp only [hws, Bool.false_or, Bool.not_eq_true'] at h
        exact h
    · intro h
      simp [h]

/-- C3 witness: the diff classification at a concrete command. -/
theorem diff_family_classification_witness :
    determineCommandSuccess "diff a.txt b.txt" 0 "x" "z" = true ∧
    determineCommandSuccess "diff a.txt b.txt" 1 "x" "z" = true ∧
    (determineCommandSuccess "diff a.txt b.txt" 2 "x" "z" = true ↔
      strContains (pyLower "z") "no such file" = false) :=
  diff_family_classification "diff a.txt b.txt" "x" "z" (by decide)

/-- C4 counterexample: `"test -f a.diff"` begins with `test` (stripped,
lowered), yet with return code 2 and a `"No such file"` stderr the
classifier returns `false`, because the `diff` family check fires first. -/
theorem test_prefix_counterexample :
    pyStartsWith (pyStrip (pyLower "test -f a.diff")) "test" = true ∧
    determineCommandSuccess "test -f a.diff" 2 "" "No such file or directory" = false := by
  decide

/-- C4 amended: a command whose stripped lowercase form begins with `"["` or
`"test"` classifies as `true` for every return code, provided its text does
not also contain `"diff"` or `"grep"` (whose family checks run first and can
return `false` at return code 2). -/
theorem test_prefix_classification (command output error : String) (returnCode : Int)
    (htest : (pyStartsWith (pyStrip (pyLower command)) "[" ||
              pyStartsWith (pyStrip (pyLower command)) "test") = true)
    (hnodiff : strContains (pyStrip (pyLower command)) "diff" = false)
    (hnogrep : strContains (pyStrip (pyLower command)) "grep" = false) :
    determineCommandSuccess command returnCode output error = true := by
  simp only [determineCommandSuccess, hnodiff, hnogrep, htest, Bool.false_eq_true, if_false,
    if_true, Option.none_orElse]
  by_cases hfind : strContains (pyStrip (pyLower command)) "find" = true
  · simp only [hfind, if_true]
    split
    · simp
    · split <;> simp
  · simp only [Bool.not_eq_true] at hfind
    simp [hfind]

/-- C4 witness: the amended test-prefix rule at a concrete command. -/
theorem test_prefix_classification_witness :
    determineCommandSuccess "test -f /nonexistent" 7 "" "boom" = true :=
  test_prefix_classification "test -f /nonexistent" "" "boom" 7
    (by decide) (by decide) (by decide)

/-- C5: stopping a registered task returns `true` and removes it, so a second
stop of the same id returns `false`; stopping an unknown id returns `false`
and leaves the registry unchanged. -/
theorem stop_task_idempotent :
    (∀ (st : TMState) (id : String) (t : BgTask),
        lookupTask st.backgroundTasks id = some t →
        (stopTask st id).1 = true ∧ (stopTask (stopTask st id).2 id).1 = false) ∧
    (∀ (st : TMState) (id : String),
        lookupTask st.backgroundTasks id = none → stopTask st id = (false, st)) := by
  constructor
  · intro st id t h
    have hfst : stopTask st id =
        (true, ⟨removeTask (setTaskStatus st.backgroundTasks id "stopped") id⟩) := by
      simp [stopTask, h]
    constructor
    · rw [hfst]
    · rw [hfst]
      simp [stopTask, lookupTask_removeTask]
  · intro st id h
    simp [stopTask, h]

/-- C5 witness: double stop of the sample task, and stop of an unknown id. -/
theorem stop_task_idempotent_witness :
    (stopTask stOne "t1").1 = true ∧
    (stopTask (stopTask stOne "t1").2 "t1").1 = false ∧
    stopTask stOne "zz" = (false, stOne) :=
  ⟨(stop_task_idempotent.1 stOne "t1" sampleTask (by decide)).1,
   (stop_task_idempotent.1 stOne "t1" sampleTask (by decide)).2,
   stop_task_idempotent.2 stOne "zz" (by decide)⟩

/-- C2 counterexample: in the reachable state where the watcher has observed
the sample task's clean exit, the task is still registered with status
`"stopped"` and a non-null process handle, so the claimed invariant
(handle non-null iff running, with removal on the stopped/error transition)
fails. -/
theorem handle_status_counterexample :
    Reach (watcherObserveExit stOne "t1" 0) ∧
    ¬ handleStatusClaim (watcherObserveExit stOne "t1" 0) :=
  ⟨Reach.watcher (Reach.start Reach.init),
   fun hcl =>
     absurd ((hcl ("t1", sampleTaskStopped) (by decide)).mp (by decide)) (by decide)⟩

/-- C2 amended: every registered task of a reachable state holds a non-null
process handle (the handle is never cleared by any operation); the watcher's
exit observation changes only status fields, removing nothing and clearing
no handle; an explicit stop returns `true` and removes the task from the
registry (again without any code path nulling the handle field). -/
theorem process_handle_lifecycle :
    (∀ st : TMState, Reach st → ∀ p ∈ st.backgroundTasks, p.2.process ≠ none) ∧
    (∀ (st : TMState) (id : String) (rc : Int),
        (watcherObserveExit st id rc).backgroundTasks.map Prod.fst =
          st.backgroundTasks.map Prod.fst ∧
        (watcherObserveExit st id rc).backgroundTasks.map (fun p => p.2.process) =
          st.backgroundTasks.map (fun p => p.2.process)) ∧
    (∀ (st : TMState) (id : String) (t : BgTask),
        lookupTask st.backgroundTasks id = some t →
        (stopTask st id).1 = true ∧
        ∀ p ∈ (stopTask st id).2.backgroundTasks, p.1 ≠ id) := by
  refine ⟨fun st h => reach_process_ne_none h,
          fun st id rc => ⟨setTaskStatus_map_fst _ _ _, setTaskStatus_map_process _ _ _⟩,
          fun st id t h => ⟨?_, ?_⟩⟩
  · simp [stopTask, h]
  · intro p hp
    have hfst : stopTask st id =
        (true, ⟨removeTask (setTaskStatus st.backgroundTasks id "stopped") id⟩) := by
      simp [stopTask, h]
    rw [hfst] at hp
    exact fst_ne_of_mem_removeTask hp

/-- C2 amended witness: the lifecycle facts at the sample registry. -/
theorem process_handle_lifecycle_witness :
    ("t1", sampleTask).2.process ≠ none ∧
    (watcherObserveExit stOne "t1" 0).backgroundTasks.map Prod.fst =
      stOne.backgroundTasks.map Prod.fst ∧
    (stopTask stOne "t1").1 = true :=
  ⟨process_handle_lifecycle.1 stOne (Reach.start Reach.init) ("t1", sampleTask) (by decide),
   (process_handle_lifecycle.2.1 stOne "t1" 0).1,
   (process_handle_lifecycle.2.2 stOne "t1" sampleTask (by decide)).1⟩

/-- C9: when script materialization or the process spawn raises, the launch
is atomic — the error is re-raised (`Except.error`) carrying the local task
object marked `"error"`, and the registry is exactly what it was before the
call. -/
theorem launch_failure_atomicity (st : TMState)
    (freshId description scriptContent msg scriptPath : String) (interval : Nat) :
    ((startMonitoringTaskSync st freshId description scriptContent interval
        (.scriptFails msg)).2 = st) ∧
    ((startMonitoringTaskSync st freshId description scriptContent interval
        (.spawnFails scriptPath msg)).2 = st) ∧
    (∃ task : BgTask,
      (startMonitoringTaskSync st freshId description scriptContent interval
          (.scriptFails msg)).1 =
        Except.error ("Failed to start background task: " ++ msg, task) ∧
      task.status = "error") ∧
    (∃ task : BgTask,
      (startMonitoringTaskSync st freshId description scriptContent interval
          (.spawnFails scriptPath msg)).1 =
        Except.error ("Failed to start background task: " ++ msg, task) ∧
      task.status = "error") :=
  ⟨rfl, rfl, ⟨_, rfl, rfl⟩, ⟨_, rfl, rfl⟩⟩

/-- C8 counterexample: on timeout the result does not report the stdout the
process had produced — the captured output is discarded. -/
theorem timeout_discards_output_counterexample :
    (executeCommand "sleep 300" 60 (.timesOut "partial stdout" "")).success = false ∧
    (executeCommand "sleep 300" 60 (.timesOut "partial stdout" "")).output ≠
      "partial stdout" :=
  ⟨rfl, by decide⟩

/-- C8 amended: a command whose process does not exit within the timeout
yields `success = false` with empty output, a timeout message as the error,
and return code `-1`; the captured stdout/stderr and the real exit status
are not reported. -/
theorem timeout_result_shape (command : String) (timeout : Nat)
    (partialOut partialErr : String) :
    executeCommand command timeout (.timesOut partialOut partialErr) =
      { success := false, output := "",
        error := "Command timed out after " ++ toString timeout ++ " seconds",
        returnCode := -1 } :=
  rfl

/-- C10: `execute_command` is total — every outcome yields a `CommandResult`
— and on both internal failure paths (spawn failure and timeout) the result
has `success = false`, empty output, and return code `-1`; only a completed
process reports its stdout/stderr and return code. -/
theorem execute_command_failure_shape (command : String) (timeout : Nat)
    (proc : ProcExec) :
    ((executeCommand command timeout proc).success = false ∧
     (executeCommand command timeout proc).output = "" ∧
     (executeCommand command timeout proc).returnCode = -1) ∨
    (∃ rc out err, proc = .completes rc out err ∧
      executeCommand command timeout proc =
        { success := determineCommandSuccess command rc out err,
          output := out, error := err, returnCode := rc }) := by
  cases proc with
  | spawnError msg => exact Or.inl ⟨rfl, rfl, rfl⟩
  | timesOut partialOut partialErr => exact Or.inl ⟨rfl, rfl, rfl⟩
  | completes rc out err => exact Or.inr ⟨rc, out, err, rfl, rfl⟩

/-- C7: appending more than 1000 lines through the watcher's append-and-trim
step leaves exactly 1000 lines, and eviction is FIFO — the log is exactly
the most recently appended 1000 (stripped) lines, in order. -/
theorem bounded_log_fifo (ls : List String) (h : 1000 < ls.length) :
    (ls.foldl (appendTrim 1000) []).length = 1000 ∧
    ls.foldl (appendTrim 1000) [] = (ls.map pyStrip).drop (ls.length - 1000) := by
  have hf := foldl_appendTrim 1000 ls [] (by simp)
  simp only [List.nil_append, List.length_nil, Nat.zero_add] at hf
  refine ⟨?_, hf⟩
  rw [hf, List.length_drop, List.length_map]
  omega

/-- C7 witness: 1001 appended lines leave the last 1000. -/
theorem bounded_log_fifo_witness :
    ((List.replicate 1001 "x").foldl (appendTrim 1000) []).length = 1000 ∧
    (List.replicate 1001 "x").foldl (appendTrim 1000) [] =
      ((List.replicate 1001 "x").map pyStrip).drop
        ((List.replicate 1001 "x").length - 1000) :=
  bounded_log_fifo (List.replicate 1001 "x") (by rw [List.length_replicate]; omega)

/-- C1: the tailer re-copies already-copied lines once the in-memory log has
been trimmed, because `new_lines = lines[len(log_list):]` uses the trimmed
in-memory length as the file cursor.  With a 1001-line file and no growth
between two polling passes, the first pass stores lines 2..1001 and the
second pass copies line 1001 (`"b"`) a second time. -/
theorem rereads_already_copied_lines :
    readNewLogLines 1000 watchedFileLines [] = List.replicate 999 "a" ++ ["b"] ∧
    readNewLogLines 1000 watchedFileLines (readNewLogLines 1000 watchedFileLines []) =
      List.replicate 998 "a" ++ ["b", "b"] := by
  have hmap : watchedFileLines.map pyStrip = watchedFileLines := by
    unfold watchedFileLines
    rw [List.map_append, List.map_replicate]
    rw [show pyStrip "a" = "a" from by decide]
    rw [show List.map pyStrip ["b"] = ["b"] from by decide]
  have hlen : watchedFileLines.length = 1001 := by
    unfold watchedFileLines
    rw [List.length_append, List.length_replicate]
    rfl
  have hlen1 : (List.replicate 999 "a" ++ ["b"] : List String).length = 1000 := by
    rw [List.length_append, List.length_replicate]
    rfl
  have hpass1 : readNewLogLines 1000 watchedFileLines [] =
      List.replicate 999 "a" ++ ["b"] := by
    unfold readNewLogLines
    rw [List.length_nil, List.drop_zero, foldl_appendTrim 1000 _ [] (by simp),
      List.nil_append, hmap, List.length_nil, hlen]
    rw [show (0 + 1001 - 1000 : Nat) = 1 from by decide]
    unfold watchedFileLines
    rw [List.drop_append_of_le_length (by rw [List.length_replicate]; omega),
      List.drop_replicate]
  have hdrop : watchedFileLines.drop 1000 = ["b"] := by
    unfold watchedFileLines
    rw [List.drop_append_of_le_length (by rw [List.length_replicate]),
      List.drop_replicate]
    decide
  refine ⟨hpass1, ?_⟩
  rw [hpass1]
  unfold readNewLogLines
  rw [hlen1, hdrop, foldl_appendTrim 1000 _ _ (le_of_eq hlen1)]
  rw [show List.map pyStrip ["b"] = ["b"] from by decide]
  rw [hlen1]
  rw [show (["b"] : List String).length = 1 from rfl]
  rw [show (1000 + 1 - 1000 : Nat) = 1 from by decide]
  rw [List.drop_append_of_le_length (by rw [hlen1]; omega)]
  rw [List.drop_append_of_le_length (by rw [List.length_replicate]; omega)]
  rw [List.drop_replicate]
  rw [show (999 - 1 : Nat) = 998 from by decide]
  rw [List.append_assoc]
  rfl

set_option maxRecDepth 40000 in
/-- C6: for every script body, the on-disk wrapper script built by the
materializer substitutes the task id for the placeholder token and contains
zero remaining occurrences of the token.  The hypotheses hold for the ids the
supervisor generates (`str(uuid.uuid4())[:8]` is 8 lowercase hex characters,
none of which occurs in the uppercase token) and for any log directory and
interval rendering free of the token's characters. -/
theorem placeholder_fully_substituted (logDirectory taskId scriptContent : String)
    (interval : Nat)
    (hid0 : taskId.data ≠ [])
    (hid : ∀ c ∈ taskId.data, c ∉ placeholderTok)
    (hdir : ∀ c ∈ logDirectory.data, c ∉ placeholderTok)
    (hivl0 : (Nat.repr interval).data ≠ [])
    (hivl : ∀ c ∈ (Nat.repr interval).data, c ∉ placeholderTok) :
    ¬ placeholderTok <:+:
      (createScriptFileText logDirectory taskId scriptContent interval).data := by
  intro h
  have htokne : placeholderTok ≠ [] := by decide
  have hsep : ∀ c ∈ taskDirSep, c ∉ placeholderTok := by decide
  rw [createScriptFileText] at h
  rw [show (String.mk (wrapperChars logDirectory.data taskId.data (Nat.repr interval).data
      (replacePlaceholder taskId.data scriptContent.data))).data =
      wrapperChars logDirectory.data taskId.data (Nat.repr interval).data
      (replacePlaceholder taskId.data scriptContent.data) from rfl] at h
  rw [wrapperChars] at h
  rcases infix_append_middle htokne hid0 hid h with h | h
  · exact absurd h (by decide)
  rcases infix_append_middle htokne hid0 hid h with h | h
  · exact absurd h (by decide)
  rcases infix_append_middle htokne hivl0 hivl h with h | h
  · exact absurd h (by decide)
  have hdirAll0 : logDirectory.data ++ (taskDirSep ++ taskId.data) ≠ [] := by
    intro he
    rcases List.append_eq_nil.mp he with ⟨_, he2⟩
    rcases List.append_eq_nil.mp he2 with ⟨he3, _⟩
    exact absurd he3 (by decide)
  have hdirAll : ∀ c ∈ logDirectory.data ++ (taskDirSep ++ taskId.data),
      c ∉ placeholderTok := by
    intro c hc
    rcases List.mem_append.mp hc with hc | hc
    · exact hdir c hc
    · rcases List.mem_append.mp hc with hc | hc
      · exact hsep c hc
      · exact hid c hc
  rcases infix_append_middle htokne hdirAll0 hdirAll h with h | h
  · exact absurd h (by decide)
  rcases infix_append_middle htokne (by decide : (['\n'] : List Char) ≠ [])
      (by decide : ∀ c ∈ (['\n'] : List Char), c ∉ placeholderTok) h with h | h
  · exact absurd h (by decide)
  replace h : placeholderTok <:+:
      indentScript 8 (replacePlaceholder taskId.data scriptContent.data) ++
        ('\n' :: wrapperSegF) := h
  rcases infix_append_middle htokne (by decide : (['\n'] : List Char) ≠ [])
      (by decide : ∀ c ∈ (['\n'] : List Char), c ∉ placeholderTok) h with h | h
  · exact replace_no_occurrence hid0 hid
      (infix_through_indentScript htokne (by decide) (by decide) h)
  · exact absurd h (by decide)

/-- C6 witness: a concrete body containing the placeholder, materialized with
a concrete hex task id, yields a script with no remaining token occurrence. -/
theorem placeholder_fully_substituted_witness :
    ¬ placeholderTok <:+:
      (createScriptFileText "logs" "abc12345" "echo PLACEHOLDER" 5).data :=
  placeholder_fully_substituted "logs" "abc12345" "echo PLACEHOLDER" 5
    (by decide) (by decide) (by decide) (by decide) (by decide)

end AiShell
